import Mathlib

/-!
Verification development for the searCrawl batch-crawl core.

The development shallowly embeds the three source modules
(`anti_crawl.py`, `crawler.py`, and the content-normalization helpers of
`crawler.py`) as executable Lean definitions and settles the frozen claims
about them.  External collaborators (the markdown renderer, the
BeautifulSoup text extraction, the reader service and the cache store) are
not part of the repository's sources; where a claim depends on them they
are modelled from the specification, and each such definition carries a
doc comment saying so.

Randomness (`random.choice`, `random.uniform`) is modelled by passing the
choice as an explicit argument; a uniformly random pick from a list of
length `n` is an arbitrary index reduced modulo `n`.
-/

namespace Searcrawl

/-! ## anti_crawl.py — ProxyType, ProxyConfig -/

/-- `ProxyType` enumeration (anti_crawl.py lines 18-22). -/
inductive ProxyType where
  | http
  | https
  | socks5
deriving DecidableEq, Repr

/-- The `.value` of a `ProxyType` member. -/
def ProxyType.value : ProxyType → String
  | .http => "http"
  | .https => "https"
  | .socks5 => "socks5"

/-- `ProxyConfig` dataclass (anti_crawl.py lines 25-37).  `username` and
`password` are `Optional[str]` in the source; Python's truthiness test on
the strings is modelled by `Option`. -/
structure ProxyConfig where
  url : String
  proxy_type : ProxyType := .http
  username : Option String := none
  password : Option String := none
deriving DecidableEq, Repr

/-- `ProxyConfig.get_proxy_url` (anti_crawl.py lines 33-37): formats the
proxy with embedded credentials when both username and password are set. -/
def ProxyConfig.get_proxy_url (p : ProxyConfig) : String :=
  match p.username, p.password with
  | some u, some w => p.proxy_type.value ++ "://" ++ u ++ ":" ++ w ++ "@" ++ p.url
  | _, _ => p.proxy_type.value ++ "://" ++ p.url

/-! ## anti_crawl.py — UserAgentPool -/

/-- `UserAgentPool.DESKTOP_USER_AGENTS` (anti_crawl.py lines 44-53). -/
def DESKTOP_USER_AGENTS : List String :=
  [ "Mozilla/5.0 (Windows NT 10.0; Win64; x64) AppleWebKit/537.36 (KHTML, like Gecko) Chrome/120.0.0.0 Safari/537.36"
  , "Mozilla/5.0 (Windows NT 10.0; Win64; x64) AppleWebKit/537.36 (KHTML, like Gecko) Chrome/119.0.0.0 Safari/537.36"
  , "Mozilla/5.0 (Macintosh; Intel Mac OS X 10_15_7) AppleWebKit/537.36 (KHTML, like Gecko) Chrome/120.0.0.0 Safari/537.36"
  , "Mozilla/5.0 (X11; Linux x86_64) AppleWebKit/537.36 (KHTML, like Gecko) Chrome/120.0.0.0 Safari/537.36"
  , "Mozilla/5.0 (Windows NT 10.0; Win64; x64; rv:121.0) Gecko/20100101 Firefox/121.0"
  , "Mozilla/5.0 (Macintosh; Intel Mac OS X 10_15_7) AppleWebKit/605.1.15 (KHTML, like Gecko) Version/17.1 Safari/605.1.15"
  , "Mozilla/5.0 (X11; Linux x86_64; rv:121.0) Gecko/20100101 Firefox/121.0"
  , "Mozilla/5.0 (Windows NT 10.0; Win64; x64) AppleWebKit/537.36 (KHTML, like Gecko) Edge/120.0.0.0" ]

/-- `UserAgentPool.MOBILE_USER_AGENTS` (anti_crawl.py lines 56-61). -/
def MOBILE_USER_AGENTS : List String :=
  [ "Mozilla/5.0 (iPhone; CPU iPhone OS 17_2 like Mac OS X) AppleWebKit/605.1.15 (KHTML, like Gecko) Version/17.2 Mobile/15E148 Safari/604.1"
  , "Mozilla/5.0 (Linux; Android 13; SM-S901B) AppleWebKit/537.36 (KHTML, like Gecko) Chrome/120.0.0.0 Mobile Safari/537.36"
  , "Mozilla/5.0 (Linux; Android 14; Pixel 8) AppleWebKit/537.36 (KHTML, like Gecko) Chrome/120.0.0.0 Mobile Safari/537.36"
  , "Mozilla/5.0 (iPad; CPU OS 17_2 like Mac OS X) AppleWebKit/605.1.15 (KHTML, like Gecko) Version/17.2 Mobile/15E148 Safari/604.1" ]

/-- `UserAgentPool._build_pool` (anti_crawl.py lines 74-84): the pool is the
desktop list, extended by the mobile list when `use_mobile`, and then by the
custom agents.  Extending by an empty custom list is the same as the
source's `if self.custom_agents:` guard. -/
def UserAgentPool.build (custom_agents : List String) (use_mobile : Bool) : List String :=
  DESKTOP_USER_AGENTS ++ (if use_mobile then MOBILE_USER_AGENTS else []) ++ custom_agents

/-! ## anti_crawl.py — ProxyPool -/

/-- `ProxyPool` (anti_crawl.py lines 95-138): the proxy list plus the
sequential-rotation cursor, which starts at 0. -/
structure ProxyPool where
  proxies : List ProxyConfig
  current_index : Nat := 0
deriving DecidableEq, Repr

/-- `ProxyPool.get_next` (anti_crawl.py lines 124-130): return the proxy at
the cursor and advance the cursor modulo the pool size.  The source indexes
`self.proxies[self.current_index]`; `List.get?` models that lookup. -/
def ProxyPool.get_next (p : ProxyPool) : Option ProxyConfig × ProxyPool :=
  if p.proxies.isEmpty then (none, p)
  else (p.proxies.get? p.current_index,
        { p with current_index := (p.current_index + 1) % p.proxies.length })

/-- `ProxyPool.get_random` (anti_crawl.py lines 118-122) with the random
draw passed in as `pick`, reduced modulo the pool size. -/
def ProxyPool.get_random (p : ProxyPool) (pick : Nat) : Option ProxyConfig :=
  if p.proxies.isEmpty then none
  else p.proxies.get? (pick % p.proxies.length)

/-- `ProxyPool.is_available` (anti_crawl.py lines 136-138). -/
def ProxyPool.is_available (p : ProxyPool) : Bool :=
  p.proxies.length > 0

/-! ## anti_crawl.py — RequestHeaderGenerator -/

/-- The three `Accept-Language` candidates of
`RequestHeaderGenerator.generate_headers` (anti_crawl.py lines 158-162). -/
def ACCEPT_LANGUAGES : List String :=
  ["en-US,en;q=0.9", "zh-CN,zh;q=0.9", "en-US,en;q=0.9,zh-CN;q=0.8"]

/-- The four `Referer` candidates of
`RequestHeaderGenerator.generate_headers` (anti_crawl.py lines 174-179). -/
def REFERERS : List String :=
  [ "https://www.google.com/", "https://www.bing.com/"
  , "https://www.baidu.com/", "https://www.duckduckgo.com/" ]

/-- `RequestHeaderGenerator.generate_headers` (anti_crawl.py lines 144-181):
the fixed realistic header set, with the two random choices passed in as
indices `li` (Accept-Language) and `ri` (Referer).  The mapping is listed in
the source's insertion order. -/
def generate_headers (user_agent : String) (li ri : Nat) (include_referer : Bool := true) :
    List (String × String) :=
  [ ("User-Agent", user_agent)
  , ("Accept", "text/html,application/xhtml+xml,application/xml;q=0.9,image/webp,*/*;q=0.8")
  , ("Accept-Language", ACCEPT_LANGUAGES.getD (li % ACCEPT_LANGUAGES.length) "")
  , ("Accept-Encoding", "gzip, deflate, br")
  , ("DNT", "1")
  , ("Connection", "keep-alive")
  , ("Upgrade-Insecure-Requests", "1")
  , ("Sec-Fetch-Dest", "document")
  , ("Sec-Fetch-Mode", "navigate")
  , ("Sec-Fetch-Site", "none")
  , ("Cache-Control", "max-age=0") ]
  ++ (if include_referer then [("Referer", REFERERS.getD (ri % REFERERS.length) "")] else [])

/-! ## anti_crawl.py — AntiCrawlConfig -/

/-- `AntiCrawlConfig` (anti_crawl.py lines 184-234), restricted to the
fields the claims touch (the float delay bounds are omitted).  The pools are
the ones `__init__` builds. -/
structure AntiCrawlConfig where
  enable_proxy_rotation : Bool := false
  enable_user_agent_rotation : Bool := true
  enable_random_headers : Bool := true
  enable_browser_headers : Bool := true
  proxy_rotation_mode : String := "random"
  user_agent_pool : List String
  proxy_pool : ProxyPool
deriving DecidableEq, Repr

/-- `AntiCrawlConfig.__init__` (anti_crawl.py lines 187-234): builds the
User-Agent pool from the custom agents and the mobile flag, and the proxy
pool with cursor 0. -/
def AntiCrawlConfig.init (enable_proxy_rotation enable_user_agent_rotation
    enable_random_headers enable_browser_headers : Bool)
    (proxy_rotation_mode : String) (custom_user_agents : List String)
    (use_mobile_agents : Bool) (proxies : List ProxyConfig) : AntiCrawlConfig :=
  { enable_proxy_rotation := enable_proxy_rotation
  , enable_user_agent_rotation := enable_user_agent_rotation
  , enable_random_headers := enable_random_headers
  , enable_browser_headers := enable_browser_headers
  , proxy_rotation_mode := proxy_rotation_mode
  , user_agent_pool := UserAgentPool.build custom_user_agents use_mobile_agents
  , proxy_pool := { proxies := proxies, current_index := 0 } }

/-- `AntiCrawlConfig.get_headers` (anti_crawl.py lines 236-243): pick the
user agent (`get_random` when rotation is on, else `get_all()[0]`), then
return the full realistic set when `enable_random_headers` or
`enable_browser_headers` is on, else only the User-Agent entry.  The random
agent pick is the argument `uaPick` modulo the pool size. -/
def AntiCrawlConfig.get_headers (cfg : AntiCrawlConfig) (uaPick li ri : Nat) :
    List (String × String) :=
  let user_agent :=
    if cfg.enable_user_agent_rotation then
      cfg.user_agent_pool.getD (uaPick % cfg.user_agent_pool.length) ""
    else cfg.user_agent_pool.getD 0 ""
  if cfg.enable_random_headers || cfg.enable_browser_headers then
    generate_headers user_agent li ri
  else [("User-Agent", user_agent)]

/-- `AntiCrawlConfig.get_proxy` (anti_crawl.py lines 245-255): `none` when
proxy rotation is off or the pool is empty; otherwise `get_next` in
`"sequential"` mode (threading the mutated pool through), else `get_random`
with a random `pick`. -/
def AntiCrawlConfig.get_proxy (cfg : AntiCrawlConfig) (pick : Nat) :
    Option String × AntiCrawlConfig :=
  if !cfg.enable_proxy_rotation || !cfg.proxy_pool.is_available then (none, cfg)
  else if cfg.proxy_rotation_mode = "sequential" then
    let s := cfg.proxy_pool.get_next
    (s.1.map ProxyConfig.get_proxy_url, { cfg with proxy_pool := s.2 })
  else ((cfg.proxy_pool.get_random pick).map ProxyConfig.get_proxy_url, cfg)

/-- Calling `get_proxy` N times in a row, collecting the returned proxy
URLs and threading the configuration state (only the sequential cursor ever
changes).  The random pick is irrelevant in sequential mode and fixed to 0. -/
def get_proxy_iter (cfg : AntiCrawlConfig) : Nat → List (Option String) × AntiCrawlConfig
  | 0 => ([], cfg)
  | n + 1 =>
      let s := cfg.get_proxy 0
      let rest := get_proxy_iter s.2 n
      (s.1 :: rest.1, rest.2)

/-! ## Text machinery shared by both normalization stages

Strings are worked on as `List Char`; Python's `str.split("\n")`,
`"\n".join(...)` and `str.strip()` are `splitNl`, `joinNl` and
`stripList`. -/

/-- Python's whitespace class (`\s`, `str.strip()`), ASCII part. -/
def isPySpace (c : Char) : Bool :=
  c = ' ' || c = '\t' || c = '\n' || c = '\r' || c = '\x0b' || c = '\x0c'

/-- `text.split("\n")`: split at every newline; `"".split("\n") = [""]`. -/
def splitNl : List Char → List (List Char)
  | [] => [[]]
  | c :: t =>
    if c = '\n' then [] :: splitNl t
    else
      match splitNl t with
      | [] => [[c]]
      | h :: r => (c :: h) :: r

/-- `"\n".join(lines)`. -/
def joinNl : List (List Char) → List Char
  | [] => []
  | [l] => l
  | l :: ls => l ++ '\n' :: joinNl ls

/-- Python `str.strip()`: drop leading and trailing whitespace. -/
def stripList (l : List Char) : List Char :=
  ((l.dropWhile isPySpace).reverse.dropWhile isPySpace).reverse

theorem length_dropWhile_le (p : Char → Bool) (l : List Char) :
    (l.dropWhile p).length ≤ l.length := by
  induction l with
  | nil => simp [List.dropWhile]
  | cons c t ih =>
    simp only [List.dropWhile]
    split
    · exact le_trans ih (by simp)
    · simp

/-! ## crawler.py — `markdown_to_text_regex` (lines 192-222)

Each `re.sub` of the source is one scanner below, in the source's order.
`re.sub` semantics: scan left to right, at each position try the pattern
(none of these patterns can match the empty string), on a match emit the
replacement and continue after the match, else emit the character and
advance one.

Every scanner takes a fuel argument bounding the number of scan steps, so
that the definitions are structurally recursive and kernel-computable.
Each step consumes at least one input character, so fuel `length + 1`
always suffices; the callers pass exactly that. -/

/-- The body of `\[([^\]]+)\]\([^\)]+\)` after its opening `[`: a nonempty
run without `]`, then `](`, a nonempty run without `)`, then `)`.  Returns
the link text and the rest of the input after the whole match.  The head of
each `dropWhile` result is the stop character itself, so only the character
after `]` needs an explicit test. -/
def parseLink (l : List Char) : Option (List Char × List Char) :=
  if (l.takeWhile (· ≠ ']')).isEmpty then none
  else
    match l.dropWhile (· ≠ ']') with
    | [] => none
    | _ :: r2 =>
      match r2 with
      | [] => none
      | c2 :: r3 =>
        if c2 = '(' then
          if (r3.takeWhile (· ≠ ')')).isEmpty then none
          else
            match r3.dropWhile (· ≠ ')') with
            | [] => none
            | _ :: r5 => some (l.takeWhile (· ≠ ']'), r5)
        else none

/-- Lazy search for the closing two-character delimiter `c c`, failing at a
newline (`.` does not match `\n`).  Returns the inner text and the rest
after the closer. -/
def findClose2 (c : Char) : List Char → Option (List Char × List Char)
  | x :: y :: rest =>
    if x = c && y = c then some ([], rest)
    else if x = '\n' then none
    else
      match findClose2 c (y :: rest) with
      | none => none
      | some (i, rem) => some (x :: i, rem)
  | _ => none

/-- Lazy search for a closing single character `c`, failing at a newline.
The inner text may be empty. -/
def findClose1 (c : Char) : List Char → Option (List Char × List Char)
  | [] => none
  | x :: rest =>
    if x = c then some ([], rest)
    else if x = '\n' then none
    else
      match findClose1 c rest with
      | none => none
      | some (i, rem) => some (x :: i, rem)

/-- Lazy search (DOTALL) for a closing triple backtick; returns the rest
after it. -/
def findTriple : List Char → Option (List Char)
  | a :: b :: c :: rest =>
    if a = '`' && b = '`' && c = '`' then some rest
    else findTriple (b :: c :: rest)
  | _ => none

/-- `re.sub(r'#+\s*', '', text)`: a maximal run of `#` and the following
whitespace run are removed. -/
def subHash : Nat → List Char → List Char
  | 0, l => l
  | _ + 1, [] => []
  | fuel + 1, c :: rest =>
    if c = '#' then
      subHash fuel ((rest.dropWhile (· = '#')).dropWhile isPySpace)
    else c :: subHash fuel rest

/-- `re.sub(r'\[([^\]]+)\]\([^\)]+\)', r'\1', text)`: collapse link/image
syntax to the link text. -/
def subLink : Nat → List Char → List Char
  | 0, l => l
  | _ + 1, [] => []
  | fuel + 1, c :: rest =>
    if c = '[' then
      match parseLink rest with
      | some (txt, rem) => txt ++ subLink fuel rem
      | none => '[' :: subLink fuel rest
    else c :: subLink fuel rest

/-- `re.sub(r'(\*\*|__)(.*?)\1', r'\2', text)`: strip a strong-emphasis
pair, keeping the (lazily matched, newline-free) inner text. -/
def subPair2 : Nat → List Char → List Char
  | 0, l => l
  | _ + 1, [] => []
  | _ + 1, [x] => [x]
  | fuel + 1, x :: y :: rest =>
    if (x = '*' && y = '*') || (x = '_' && y = '_') then
      match findClose2 x rest with
      | some (inner, rem) => inner ++ subPair2 fuel rem
      | none => x :: subPair2 fuel (y :: rest)
    else x :: subPair2 fuel (y :: rest)

/-- `re.sub(r'(\*|_)(.*?)\1', r'\2', text)`: strip a single-character
emphasis pair (inner text may be empty). -/
def subPair1 : Nat → List Char → List Char
  | 0, l => l
  | _ + 1, [] => []
  | fuel + 1, x :: rest =>
    if x = '*' || x = '_' then
      match findClose1 x rest with
      | some (inner, rem) => inner ++ subPair1 fuel rem
      | none => x :: subPair1 fuel rest
    else x :: subPair1 fuel rest

/-- `re.sub(r'^[\*\-\+]\s*', '', text, flags=re.MULTILINE)`: at a line
start, remove one list marker and the following whitespace run (which, `\s`
matching `\n`, may span newlines).  `atStart` is true at the string start
and right after a newline; after a match it holds exactly when the last
matched character was a newline. -/
def subListMarker : Nat → Bool → List Char → List Char
  | 0, _, l => l
  | _ + 1, _, [] => []
  | fuel + 1, atStart, c :: rest =>
    if atStart && (c = '*' || c = '-' || c = '+') then
      subListMarker fuel ((rest.takeWhile isPySpace).getLastD c = '\n')
        (rest.dropWhile isPySpace)
    else c :: subListMarker fuel (c = '\n') rest

/-- `re.sub(r'`{3}.*?`{3}', '', text, flags=re.DOTALL)`: remove a fenced
code block entirely, newlines included. -/
def subFence : Nat → List Char → List Char
  | 0, l => l
  | _ + 1, [] => []
  | _ + 1, [x] => [x]
  | _ + 1, [x, y] => [x, y]
  | fuel + 1, a :: b :: c :: rest =>
    if a = '`' && b = '`' && c = '`' then
      match findTriple rest with
      | some rem => subFence fuel rem
      | none => a :: subFence fuel (b :: c :: rest)
    else a :: subFence fuel (b :: c :: rest)

/-- `re.sub(r'`(.*?)`', r'\1', text)`: unwrap an inline code span (lazy,
newline-free, possibly empty inner text). -/
def subCode : Nat → List Char → List Char
  | 0, l => l
  | _ + 1, [] => []
  | fuel + 1, x :: rest =>
    if x = '`' then
      match findClose1 '`' rest with
      | some (inner, rem) => inner ++ subCode fuel rem
      | none => '`' :: subCode fuel rest
    else x :: subCode fuel rest

/-- `re.sub(r'^>\s*', '', text, flags=re.MULTILINE)`: strip a leading quote
marker and the following whitespace run at a line start. -/
def subQuoteMarker : Nat → Bool → List Char → List Char
  | 0, _, l => l
  | _ + 1, _, [] => []
  | fuel + 1, atStart, c :: rest =>
    if atStart && c = '>' then
      subQuoteMarker fuel ((rest.takeWhile isPySpace).getLastD c = '\n')
        (rest.dropWhile isPySpace)
    else c :: subQuoteMarker fuel (c = '\n') rest

/-- `WebCrawler.markdown_to_text_regex` (crawler.py lines 192-222): the
eight substitutions in source order, then `str.strip()`. -/
def markdown_to_text_regexL (l : List Char) : List Char :=
  let t1 := subHash (l.length + 1) l
  let t2 := subLink (t1.length + 1) t1
  let t3 := subPair2 (t2.length + 1) t2
  let t4 := subPair1 (t3.length + 1) t3
  let t5 := subListMarker (t4.length + 1) true t4
  let t6 := subFence (t5.length + 1) t5
  let t7 := subCode (t6.length + 1) t6
  let t8 := subQuoteMarker (t7.length + 1) true t7
  stripList t8

/-- `WebCrawler.markdown_to_text_regex` on `String`. -/
def markdown_to_text_regex (s : String) : String :=
  (markdown_to_text_regexL s.toList).asString

/-! ## crawler.py — `markdown_to_text` (lines 224-245)

The source renders the markdown to HTML with the external `markdown`
library and extracts text with BeautifulSoup's
`soup.get_text(separator="\n")`; both libraries are outside the
repository.  `mdInline`/`lineNodes`/`markdownNodes` below are modelled
from the spec ("render markdown to an intermediate document
representation, extract text nodes preserving paragraph breaks"): they
produce the sequence of text nodes of the rendered document, for the
markdown constructs the claims exercise (ATX headings, paragraphs,
unordered list items, strong emphasis, inline links, inline code spans).
`get_text(separator="\n")` joins the text nodes with a newline; the
blank-line cleanup that follows it is source code (lines 240-243) and is
translated faithfully. -/

/-- Flush the (reversed) plain-text buffer as one text node. -/
def flushBuf (buf : List Char) (nodes : List (List Char)) : List (List Char) :=
  if buf.isEmpty then nodes else buf.reverse :: nodes

/-- Modelled from the spec: the text nodes of one rendered inline run.
Inline code spans, strong emphasis (`**`/`__` with nonempty inner text) and
links each yield a separate element, hence a separate text node; everything
else accumulates into plain text nodes.  Fueled like the scanners above. -/
def mdInlineAux : Nat → List Char → List Char → List (List Char)
  | 0, l, buf => flushBuf (l.reverse ++ buf) []
  | _ + 1, [], buf => flushBuf buf []
  | fuel + 1, c :: rest, buf =>
    if c = '`' then
      match findClose1 '`' rest with
      | some (inner, rem) =>
          if inner.isEmpty then mdInlineAux fuel rest ('`' :: buf)
          else flushBuf buf (inner :: mdInlineAux fuel rem [])
      | none => mdInlineAux fuel rest ('`' :: buf)
    else if (c = '*' || c = '_') && rest.headD ' ' = c then
      match findClose2 c rest.tail with
      | some (inner, rem) =>
          if inner.isEmpty then mdInlineAux fuel rest (c :: buf)
          else flushBuf buf (inner :: mdInlineAux fuel rem [])
      | none => mdInlineAux fuel rest (c :: buf)
    else if c = '[' then
      match parseLink rest with
      | some (txt, rem) => flushBuf buf (txt :: mdInlineAux fuel rem [])
      | none => mdInlineAux fuel rest ('[' :: buf)
    else mdInlineAux fuel rest (c :: buf)

/-- The text nodes of one inline run. -/
def mdInline (l : List Char) : List (List Char) :=
  mdInlineAux (l.length + 1) l []

/-- Modelled from the spec: the text nodes one source line contributes to
the rendered document.  A blank line contributes none (it only separates
blocks); a line starting with `#` renders as a heading whose text drops the
marker run and surrounding whitespace; a line starting with a list marker
and whitespace renders as a list item; anything else is paragraph text. -/
def lineNodes (l : List Char) : List (List Char) :=
  if (stripList l).isEmpty then []
  else if l.headD ' ' = '#' then
    mdInline (stripList (l.dropWhile (· = '#')))
  else if (l.headD ' ' = '*' || l.headD ' ' = '-' || l.headD ' ' = '+')
      && isPySpace (l.tail.headD 'x') then
    mdInline (l.tail.dropWhile isPySpace)
  else mdInline l

/-- Modelled from the spec: the text nodes of the whole rendered document,
line by line. -/
def markdownNodes (l : List Char) : List (List Char) :=
  ((splitNl l).map lineNodes).flatten

/-- `soup.get_text(separator="\n")` (crawler.py line 238): the text nodes
joined with a newline. -/
def soup_get_text (nodes : List (List Char)) : List Char :=
  joinNl nodes

/-- The blank-line cleanup of `markdown_to_text` (crawler.py lines
240-243): strip every line and drop the ones that become empty. -/
def cleanupBlankLines (t : List Char) : List Char :=
  joinNl (((splitNl t).map stripList).filter (fun l => !l.isEmpty))

/-- `WebCrawler.markdown_to_text` (crawler.py lines 224-245): render,
extract text nodes, join with newlines, clean blank lines. -/
def markdown_to_textL (l : List Char) : List Char :=
  cleanupBlankLines (soup_get_text (markdownNodes l))

/-- `WebCrawler.markdown_to_text` on `String`. -/
def markdown_to_text (s : String) : String :=
  (markdown_to_textL s.toList).asString

/-- The two-stage normalization exactly as `crawl_urls` applies it
(crawler.py line 515): `markdown_to_text_regex(markdown_to_text(content))`. -/
def normalize_content (s : String) : String :=
  markdown_to_text_regex (markdown_to_text s)

/-! ## crawler.py — `WebCrawler.crawl_urls` (lines 301-548)

The orchestrator is embedded as a pure function.  Its effectful
collaborators become parameters:

* the cache (`cache_manager.is_available()` / `get_batch`) is a Bool plus
  a lookup function returning the stored entry per URL;
* the reader backend (`fetch_with_reader`, module not in the repository;
  modelled from the spec: one call per URL returning extracted content or
  failure, no retry) is a function `String → Option String` whose `some`
  result stands for the `{content, reference}` dict with `reference` the
  requested URL;
* the render backend (`crawler.arun_many`) is one function
  `String → EngineResult` per pass, order-aligned with its input list.

Cache write-back (`set_batch`) has no observable effect on the returned
response and is not represented. -/

/-- One `{content, reference}` result dict. -/
structure ResultEntry where
  content : String
  reference : String
deriving DecidableEq, Repr

/-- A cached entry as `get_batch` returns it: the stored `content` and
`reference` fields. -/
structure CacheEntry where
  content : String
  reference : String
deriving DecidableEq, Repr

/-- What one element of `arun_many`'s result list can look like to the
per-result classification of crawler.py lines 423-454: `None`, an object
without `success`, a failed crawl, a success without
`markdown.fit_markdown`, or a success carrying `fit_markdown` (possibly the
empty string — the source only checks `hasattr`, never emptiness). -/
inductive EngineResult where
  | noResult
  | noSuccessAttr
  | failure
  | noMarkdown
  | ok (content : String)
deriving DecidableEq, Repr

/-- A crawl result is classified usable exactly when the engine reported
success and exposed the `markdown.fit_markdown` field. -/
def EngineResult.isSuccess : EngineResult → Bool
  | .ok _ => true
  | _ => false

/-- The response dictionary of `crawl_urls`.  `newly_crawled` is an
`Option` because the all-cached early return (crawler.py lines 347-352)
builds a dictionary without that key. -/
structure CrawlResponse where
  results : List ResultEntry
  success_count : Nat
  failed_urls : List String
  cache_hits : Nat
  newly_crawled : Option Nat
deriving DecidableEq, Repr

/-- A `crawl_urls` call either returns a response or raises the
all-fetches-failed `HTTPException` (crawler.py lines 508-510; the generic
re-raise at lines 546-548 preserves it). -/
inductive CrawlOutcome where
  | ok (r : CrawlResponse)
  | allFailed
deriving DecidableEq, Repr

/-- The cache partition of crawler.py lines 320-342: when the cache is
available, hits (in input order) become cached `{content, reference}`
entries and misses become `urls_to_process`; otherwise every URL is a
miss. -/
def cachePartition (urls : List String) (avail : Bool)
    (cache : String → Option CacheEntry) : List ResultEntry × List String :=
  if avail then
    (urls.filterMap (fun u => (cache u).map (fun e => ⟨e.content, e.reference⟩)),
     urls.filter (fun u => (cache u).isNone))
  else ([], urls)

/-- The successful entries one dispatch pass contributes to `all_results`,
in input order (crawler.py lines 423-454 and 471-502): for each URL whose
engine result is a success with content, the `{content, reference}` pair. -/
def passResults (p : String → EngineResult) (us : List String) : List ResultEntry :=
  us.filterMap (fun u =>
    match p u with
    | .ok c => some ⟨c, u⟩
    | _ => none)

/-- The URLs one dispatch pass classifies as failed, in input order. -/
def passFailures (p : String → EngineResult) (us : List String) : List String :=
  us.filter (fun u => !(p u).isSuccess)

/-- One backend round for the miss set: the list of dispatched batches,
the accumulated `all_results`, and the `failed_urls` list as it stands
before consolidation.

Reader path (crawler.py lines 360-370): a single fan-out over the miss
set, successful results collected, failures not recorded here.

Render path (crawler.py lines 372-502): a first `arun_many` over the miss
set; the first-pass failures are re-dispatched once (guarded by
`if retry_urls:`), with second-pass failures appended to `failed_urls`. -/
def doFetch (readerEnabled : Bool) (reader : String → Option String)
    (p1 p2 : String → EngineResult) (utp : List String) :
    List (List String) × List ResultEntry × List String :=
  if readerEnabled then
    ([utp], utp.filterMap (fun u => (reader u).map (fun c => ⟨c, u⟩)), [])
  else
    let firstOk := passResults p1 utp
    let retry_urls := passFailures p1 utp
    if retry_urls.isEmpty then ([utp], firstOk, [])
    else ([utp, retry_urls],
          firstOk ++ passResults p2 retry_urls,
          passFailures p2 retry_urls)

/-- `WebCrawler.crawl_urls` (crawler.py lines 301-548).

The steps in source order: cache partition; the all-cached early return
(note: its dictionary has no `newly_crawled` key); backend dispatch with
one retry on the render path; consolidation
`failed_urls.extend([url for url in urls_to_process if url not in crawled_urls])`;
the all-failed raise when `all_results` (the fetched results only) is
empty; normalization of every fetched result; response assembly with
cached results first. -/
def crawl_urls (urls : List String) (avail : Bool)
    (cache : String → Option CacheEntry) (readerEnabled : Bool)
    (reader : String → Option String) (p1 p2 : String → EngineResult) :
    CrawlOutcome :=
  let cached := (cachePartition urls avail cache).1
  let utp := (cachePartition urls avail cache).2
  if utp.isEmpty then
    .ok ⟨cached, cached.length, [], cached.length, none⟩
  else
    let f := doFetch readerEnabled reader p1 p2 utp
    let all_results := f.2.1
    let failed_urls :=
      f.2.2 ++ utp.filter (fun u => !(all_results.map ResultEntry.reference).contains u)
    if all_results.isEmpty then .allFailed
    else
      let processed := all_results.map (fun e => ⟨normalize_content e.content, e.reference⟩)
      let combined := cached ++ processed
      .ok ⟨combined, combined.length, failed_urls, cached.length, some processed.length⟩

/-- The sequence of backend dispatches a `crawl_urls` call performs: none
when every URL is a cache hit, else the batches `doFetch` sends. -/
def crawl_dispatches (urls : List String) (avail : Bool)
    (cache : String → Option CacheEntry) (readerEnabled : Bool)
    (reader : String → Option String) (p1 p2 : String → EngineResult) :
    List (List String) :=
  let utp := (cachePartition urls avail cache).2
  if utp.isEmpty then []
  else (doFetch readerEnabled reader p1 p2 utp).1

/-- The newly-fetched part of a response: everything after the cached
results, which come first in `results`. -/
def newEntries (r : CrawlResponse) : List ResultEntry :=
  r.results.drop r.cache_hits

/-! ## Generic helper lemmas -/

theorem getD_mem_of_lt {α : Type} (l : List α) (n : Nat) (d : α) (h : n < l.length) :
    l.getD n d ∈ l := by
  induction l generalizing n with
  | nil => simp at h
  | cons a t ih =>
    cases n with
    | zero => simp [List.getD]
    | succ m =>
      simp only [List.getD_cons_succ]
      exact List.mem_cons_of_mem a (ih m (by simpa using h))

theorem length_filter_partition {α : Type} (p : α → Bool) (l : List α) :
    (l.filter p).length + (l.filter (fun a => !(p a))).length = l.length := by
  induction l with
  | nil => simp
  | cons a t ih =>
    cases hp : p a <;> simp [List.filter_cons, hp] <;> omega

/-! ## Claim C10 — the user-agent pool always contains the built-in
desktop agents -/

/-- C10: for every custom-agent list and mobile flag, the built user-agent
pool starts with the eight built-in desktop agents, so it has length at
least 8 and is never empty; any modular random index selects an element of
the pool; and with UA rotation disabled `get_headers` puts the first
built-in desktop agent in its User-Agent entry (the first entry of the
returned mapping), whatever the other flags are. -/
theorem C10_ua_pool_never_empty (custom : List String) (use_mobile : Bool)
    (k p li ri : Nat) (a b c : Bool) (m : String) (ps : List ProxyConfig) :
    DESKTOP_USER_AGENTS <+: UserAgentPool.build custom use_mobile ∧
    8 ≤ (UserAgentPool.build custom use_mobile).length ∧
    UserAgentPool.build custom use_mobile ≠ [] ∧
    (UserAgentPool.build custom use_mobile).getD
        (k % (UserAgentPool.build custom use_mobile).length) ""
      ∈ UserAgentPool.build custom use_mobile ∧
    ((AntiCrawlConfig.init a false b c m custom use_mobile ps).get_headers p li ri).head? =
      some ("User-Agent", DESKTOP_USER_AGENTS.getD 0 "") := by
  have hlen : 8 ≤ (UserAgentPool.build custom use_mobile).length := by
    simp only [UserAgentPool.build, List.length_append]
    have : DESKTOP_USER_AGENTS.length = 8 := by rfl
    omega
  refine ⟨?_, hlen, ?_, ?_, ?_⟩
  · unfold UserAgentPool.build
    rw [List.append_assoc]
    exact List.prefix_append _ _
  · intro hnil
    rw [hnil] at hlen
    simp at hlen
  · exact getD_mem_of_lt _ _ _ (Nat.mod_lt _ (by omega))
  · have hua : (UserAgentPool.build custom use_mobile)[0]?.getD "" =
        DESKTOP_USER_AGENTS[0]?.getD "" := by
      simp [UserAgentPool.build, DESKTOP_USER_AGENTS]
    cases hb : b <;> cases hc : c <;>
      simp [AntiCrawlConfig.get_headers, AntiCrawlConfig.init, generate_headers, hua]

/-! ## Claim C9 — shape of the generated header mapping -/

/-- The keys of the realistic header set, in insertion order. -/
def REALISTIC_HEADER_KEYS : List String :=
  [ "User-Agent", "Accept", "Accept-Language", "Accept-Encoding", "DNT"
  , "Connection", "Upgrade-Insecure-Requests", "Sec-Fetch-Dest"
  , "Sec-Fetch-Mode", "Sec-Fetch-Site", "Cache-Control", "Referer" ]

/-- C9 counterexample: with header randomization disabled but browser
headers enabled, `get_headers` does not return the single-entry
`{User-Agent}` mapping — it returns the full realistic set. -/
theorem C9_counterexample :
    (AntiCrawlConfig.init false false false true "random" [] false []).enable_random_headers
      = false ∧
    ((AntiCrawlConfig.init false false false true "random" [] false []).get_headers 0 0 0).map
        Prod.fst ≠ ["User-Agent"] ∧
    ((AntiCrawlConfig.init false false false true "random" [] false []).get_headers 0 0 0).length
      = 12 := by
  refine ⟨rfl, ?_, rfl⟩
  decide

/-- C9 amended: `get_headers` returns the single-entry `{User-Agent}`
mapping exactly when BOTH `enable_random_headers` and
`enable_browser_headers` are off; when either is on it returns the fixed
realistic key set with an Accept-Language drawn from the three locale
candidates and a Referer drawn from the four referrer candidates. -/
theorem C9_headers_shape (cfg : AntiCrawlConfig) (p li ri : Nat) :
    ((cfg.get_headers p li ri).map Prod.fst =
      if cfg.enable_random_headers || cfg.enable_browser_headers then
        REALISTIC_HEADER_KEYS
      else ["User-Agent"]) ∧
    ((cfg.enable_random_headers || cfg.enable_browser_headers) = true →
      (∃ lg ∈ ACCEPT_LANGUAGES, ("Accept-Language", lg) ∈ cfg.get_headers p li ri) ∧
      (∃ rf ∈ REFERERS, ("Referer", rf) ∈ cfg.get_headers p li ri)) ∧
    ((cfg.enable_random_headers || cfg.enable_browser_headers) = false →
      ∃ ua, cfg.get_headers p li ri = [("User-Agent", ua)]) := by
  cases hrb : cfg.enable_random_headers || cfg.enable_browser_headers with
  | false =>
    refine ⟨by simp [AntiCrawlConfig.get_headers, hrb], by simp [hrb], fun _ => ?_⟩
    unfold AntiCrawlConfig.get_headers
    rw [hrb]
    exact ⟨_, rfl⟩
  | true =>
    refine ⟨?_, fun _ => ⟨⟨ACCEPT_LANGUAGES.getD (li % ACCEPT_LANGUAGES.length) "", ?_, ?_⟩,
      ⟨REFERERS.getD (ri % REFERERS.length) "", ?_, ?_⟩⟩, by simp [hrb]⟩
    · simp [AntiCrawlConfig.get_headers, hrb, generate_headers, REALISTIC_HEADER_KEYS]
    · exact getD_mem_of_lt _ _ _ (Nat.mod_lt _ (by simp [ACCEPT_LANGUAGES]))
    · simp [AntiCrawlConfig.get_headers, hrb, generate_headers]
    · exact getD_mem_of_lt _ _ _ (Nat.mod_lt _ (by simp [REFERERS]))
    · simp [AntiCrawlConfig.get_headers, hrb, generate_headers]

/-! ## Claim C8 — sequential proxy rotation -/

/-- An `AntiCrawlConfig` in sequential rotation mode with proxy rotation
enabled, as `__init__` builds it (cursor 0). -/
def seqProxyConfig (ps : List ProxyConfig) : AntiCrawlConfig :=
  AntiCrawlConfig.init true true true true "sequential" [] false ps

/-- The same configuration with the cursor at `c`. -/
def seqProxyConfigAt (ps : List ProxyConfig) (c : Nat) : AntiCrawlConfig :=
  { seqProxyConfig ps with proxy_pool := { proxies := ps, current_index := c } }

theorem seqProxyConfig_eq_at0 (ps : List ProxyConfig) :
    seqProxyConfig ps = seqProxyConfigAt ps 0 := rfl

theorem get_proxy_seq_step (ps : List ProxyConfig) (hps : ps ≠ []) (c : Nat) :
    (seqProxyConfigAt ps c).get_proxy 0 =
      ((ps.get? c).map ProxyConfig.get_proxy_url,
       seqProxyConfigAt ps ((c + 1) % ps.length)) := by
  have hne : ps.isEmpty = false := by simp [List.isEmpty_iff, hps]
  have hpos : 0 < ps.length := List.length_pos.mpr hps
  simp [AntiCrawlConfig.get_proxy, seqProxyConfigAt, seqProxyConfig,
    AntiCrawlConfig.init, ProxyPool.is_available, ProxyPool.get_next, hne, hpos]

theorem get_proxy_iter_seq (ps : List ProxyConfig) (hps : ps ≠ []) :
    ∀ (N c : Nat), c < ps.length →
      get_proxy_iter (seqProxyConfigAt ps c) N =
        ((List.range N).map
           (fun j => (ps.get? ((c + j) % ps.length)).map ProxyConfig.get_proxy_url),
         seqProxyConfigAt ps ((c + N) % ps.length)) := by
  intro N
  induction N with
  | zero =>
    intro c hc
    simp [get_proxy_iter, Nat.mod_eq_of_lt hc]
  | succ n ih =>
    intro c hc
    have hpos : 0 < ps.length := List.length_pos.mpr hps
    have step := get_proxy_seq_step ps hps c
    have ihc := ih ((c + 1) % ps.length) (Nat.mod_lt _ hpos)
    have harith : ∀ j : Nat,
        ((c + 1) % ps.length + j) % ps.length = (c + (j + 1)) % ps.length := by
      intro j
      rw [Nat.mod_add_mod]
      congr 1
      omega
    simp only [get_proxy_iter, step, ihc]
    rw [List.range_succ_eq_map]
    simp only [List.map_cons, List.map_map, Nat.add_zero, Nat.mod_eq_of_lt hc,
      Prod.mk.injEq]
    refine ⟨?_, by rw [harith n]⟩
    congr 1
    refine List.map_congr_left ?_
    intro j _
    simp only [Function.comp_apply, harith j]

theorem countP_congr' {α : Type} (p q : α → Bool) (l : List α)
    (h : ∀ a ∈ l, p a = q a) : l.countP p = l.countP q := by
  induction l with
  | nil => rfl
  | cons a t ih =>
    simp only [List.countP_cons, h a (List.mem_cons_self a t),
      ih (fun x hx => h x (List.mem_cons_of_mem a hx))]

theorem count_map_eq_countP {α β : Type} [BEq β] (f : α → β) (l : List α) (b : β) :
    (l.map f).count b = l.countP (fun a => f a == b) := by
  induction l with
  | nil => rfl
  | cons a t ih => simp [List.count_cons, List.countP_cons, ih]

/-- How often residue `i` occurs among `0 % K, ..., (N-1) % K`. -/
theorem countP_range_mod (K i : Nat) (hK : 0 < K) (hi : i < K) (N : Nat) :
    (List.range N).countP (fun j => decide (j % K = i)) =
      N / K + (if i < N % K then 1 else 0) := by
  induction N with
  | zero => simp
  | succ n ih =>
    rw [List.range_succ, List.countP_append, ih]
    have hr : n % K < K := Nat.mod_lt _ hK
    have hsingle : List.countP (fun j => decide (j % K = i)) [n] =
        if n % K = i then 1 else 0 := by
      simp [List.countP_cons]
    rw [hsingle]
    by_cases hrK : n % K + 1 = K
    · have h1 : n + 1 = K * (n / K + 1) := by
        have h2 : K * (n / K + 1) = K * (n / K) + K := by ring
        have h3 := Nat.div_add_mod n K
        omega
      have hdiv : (n + 1) / K = n / K + 1 := by
        rw [h1, Nat.mul_div_cancel_left _ hK]
      have hmod : (n + 1) % K = 0 := by
        rw [h1, Nat.mul_mod_right]
      rw [hdiv, hmod]
      split_ifs <;> omega
    · have h3 := Nat.div_add_mod n K
      have h1 : n + 1 = K * (n / K) + (n % K + 1) := by omega
      have hb : (n % K + 1) / K = 0 := Nat.div_eq_of_lt (by omega)
      have hdiv : (n + 1) / K = n / K := by
        rw [h1, Nat.mul_add_div hK, hb]
        omega
      have hmod : (n + 1) % K = n % K + 1 := by
        rw [h1, Nat.mul_add_mod]
        exact Nat.mod_eq_of_lt (by omega)
      rw [hdiv, hmod]
      split_ifs <;> omega

/-- C8: starting from a nonempty pool of size K in Sequential mode with
proxy rotation enabled, N `get_proxy` calls return exactly
`pool[0 % K], pool[1 % K], ..., pool[(N-1) % K]` formatted as proxy URLs —
the pool in order, wrapping around — so (when the formatted entries are
distinct) each pool entry is served either `N / K` or `N / K + 1` times;
and after any number of calls the cursor equals the call count modulo K,
hence always lies in `[0, K)`. -/
theorem C8_sequential_rotation (ps : List ProxyConfig) (N : Nat) (hps : ps ≠ []) :
    (get_proxy_iter (seqProxyConfig ps) N).1 =
      (List.range N).map
        (fun j => (ps.get? (j % ps.length)).map ProxyConfig.get_proxy_url) ∧
    (∀ m : Nat,
      (get_proxy_iter (seqProxyConfig ps) m).2.proxy_pool.current_index = m % ps.length ∧
      m % ps.length < ps.length) ∧
    ((ps.map ProxyConfig.get_proxy_url).Nodup →
      ∀ (i : Nat) (pc : ProxyConfig), ps.get? i = some pc →
        (get_proxy_iter (seqProxyConfig ps) N).1.count (some pc.get_proxy_url) =
            N / ps.length ∨
        (get_proxy_iter (seqProxyConfig ps) N).1.count (some pc.get_proxy_url) =
            N / ps.length + 1) := by
  have hpos : 0 < ps.length := List.length_pos.mpr hps
  have hN := get_proxy_iter_seq ps hps N 0 hpos
  rw [seqProxyConfig_eq_at0]
  have houts : (get_proxy_iter (seqProxyConfigAt ps 0) N).1 =
      (List.range N).map
        (fun j => (ps.get? (j % ps.length)).map ProxyConfig.get_proxy_url) := by
    rw [hN]
    simp
  refine ⟨houts, ?_, ?_⟩
  · intro m
    have hm := get_proxy_iter_seq ps hps m 0 hpos
    rw [hm]
    exact ⟨by simp [seqProxyConfigAt, seqProxyConfig, AntiCrawlConfig.init],
      Nat.mod_lt _ hpos⟩
  · intro hnd i pc hget
    have hi : i < ps.length := by
      by_contra hcon
      rw [List.get?_eq_none.mpr (Nat.le_of_not_lt hcon)] at hget
      exact absurd hget (by simp)
    rw [houts, count_map_eq_countP]
    have hcong : ∀ j ∈ List.range N,
        ((ps.get? (j % ps.length)).map ProxyConfig.get_proxy_url ==
          some pc.get_proxy_url) = decide (j % ps.length = i) := by
      intro j _
      have hjK : j % ps.length < ps.length := Nat.mod_lt _ hpos
      obtain ⟨q, hq⟩ : ∃ q, ps.get? (j % ps.length) = some q := by
        cases hg : ps.get? (j % ps.length) with
        | some q => exact ⟨q, rfl⟩
        | none =>
          rw [List.get?_eq_none] at hg
          omega
      have hiff : q.get_proxy_url = pc.get_proxy_url ↔ j % ps.length = i := by
        constructor
        · intro he
          have h1 : (ps.map ProxyConfig.get_proxy_url).get? (j % ps.length) =
              some q.get_proxy_url := by
            rw [List.get?_map, hq]
            rfl
          have h2 : (ps.map ProxyConfig.get_proxy_url).get? i =
              some pc.get_proxy_url := by
            rw [List.get?_map, hget]
            rfl
          refine List.get?_inj (by simpa using hjK) hnd ?_
          rw [h1, h2, he]
        · intro he
          rw [he, hget] at hq
          rw [Option.some.injEq] at hq
          rw [hq]
      rw [hq]
      simp only [Option.map_some']
      rw [show ((some q.get_proxy_url == some pc.get_proxy_url)) =
        decide (q.get_proxy_url = pc.get_proxy_url) from by
          cases hd : decide (q.get_proxy_url = pc.get_proxy_url) <;>
            simp_all]
      exact decide_eq_decide.mpr hiff
    rw [countP_congr' _ _ _ hcong, countP_range_mod ps.length i hpos hi N]
    by_cases him : i < N % ps.length
    · right
      simp [him]
    · left
      simp [him]

/-- C8 witness: a pool of two proxies served three sequential calls yields
pool order wrapping: first, second, first. -/
theorem C8_sequential_rotation_witness :
    (get_proxy_iter (seqProxyConfig
        [⟨"h1", .http, none, none⟩, ⟨"h2", .http, none, none⟩]) 3).1 =
      [some "http://h1", some "http://h2", some "http://h1"] := by
  have h := C8_sequential_rotation
    [⟨"h1", .http, none, none⟩, ⟨"h2", .http, none, none⟩] 3 (by simp)
  rw [h.1]
  rfl

/-! ## Lemmas about the crawl pipeline pieces -/

theorem cachePartition_length (urls : List String) (avail : Bool)
    (cache : String → Option CacheEntry) :
    (cachePartition urls avail cache).1.length + (cachePartition urls avail cache).2.length
      = urls.length := by
  unfold cachePartition
  split
  · induction urls with
    | nil => simp
    | cons u t ih =>
      cases hc : cache u <;>
        simp only [List.filterMap_cons, List.filter_cons, hc, Option.map_some',
          Option.map_none', Option.isNone_some, Option.isNone_none, List.length_cons] <;>
        simp_all <;> omega
  · simp

theorem cachePartition_misses_nodup {urls : List String} (avail : Bool)
    (cache : String → Option CacheEntry) (h : urls.Nodup) :
    (cachePartition urls avail cache).2.Nodup := by
  unfold cachePartition
  split
  · exact h.filter _
  · exact h

theorem mem_cachePartition_misses {urls : List String} {avail : Bool}
    {cache : String → Option CacheEntry} {u : String} (hu : u ∈ urls) :
    u ∈ (cachePartition urls avail cache).2 ↔
      ¬(avail = true ∧ (cache u).isSome = true) := by
  unfold cachePartition
  cases avail with
  | false => simp [hu]
  | true =>
    simp only [if_true, List.mem_filter, hu, true_and]
    cases cache u <;> simp

theorem passResults_map_ref (p : String → EngineResult) (us : List String) :
    (passResults p us).map ResultEntry.reference =
      us.filter (fun u => (p u).isSuccess) := by
  induction us with
  | nil => simp [passResults]
  | cons u t ih =>
    cases hp : p u <;>
      simp_all [passResults, List.filterMap_cons, List.filter_cons, hp,
        EngineResult.isSuccess]

theorem length_passResults (p : String → EngineResult) (us : List String) :
    (passResults p us).length = (us.filter (fun u => (p u).isSuccess)).length := by
  rw [← passResults_map_ref p us, List.length_map]

theorem mem_passResults_of {p : String → EngineResult} {us : List String} {u : String}
    {c : String} (hu : u ∈ us) (hc : p u = .ok c) :
    (⟨c, u⟩ : ResultEntry) ∈ passResults p us := by
  induction us with
  | nil => simp at hu
  | cons v t ih =>
    rcases List.mem_cons.mp hu with rfl | hmem
    · simp [passResults, List.filterMap_cons, hc]
    · unfold passResults
      rw [List.filterMap_cons]
      split <;> simp_all [passResults]

theorem mem_passFailures {p : String → EngineResult} {us : List String} {u : String} :
    u ∈ passFailures p us ↔ u ∈ us ∧ (p u).isSuccess = false := by
  simp [passFailures, List.mem_filter]

theorem passFailures_eq_filter (p : String → EngineResult) (us : List String) :
    passFailures p us = us.filter (fun u => !(p u).isSuccess) := rfl

/-- The references of the fetched results, in both backend paths, as one
filter expression (in the render path the second summand collects the
retry-pass recoveries). -/
theorem doFetch_refs (rdr : Bool) (reader : String → Option String)
    (p1 p2 : String → EngineResult) (utp : List String) :
    ((doFetch rdr reader p1 p2 utp).2.1).map ResultEntry.reference =
      if rdr then utp.filter (fun u => (reader u).isSome)
      else utp.filter (fun u => (p1 u).isSuccess) ++
           (passFailures p1 utp).filter (fun u => (p2 u).isSuccess) := by
  cases rdr with
  | true =>
    simp only [doFetch, if_true]
    induction utp with
    | nil => simp
    | cons u t ih =>
      cases hr : reader u <;>
        simp_all [List.filterMap_cons, List.filter_cons, hr]
  | false =>
    simp only [doFetch, if_false, Bool.false_eq_true]
    split
    · next hempty =>
      rw [List.isEmpty_iff] at hempty
      simp [passResults_map_ref, passFailures_eq_filter, hempty,
        ← passFailures_eq_filter]
    · simp [List.map_append, passResults_map_ref]

/-- The pre-consolidation `failed_urls` of both backend paths. -/
theorem doFetch_failed0 (rdr : Bool) (reader : String → Option String)
    (p1 p2 : String → EngineResult) (utp : List String) :
    (doFetch rdr reader p1 p2 utp).2.2 =
      if rdr then [] else (passFailures p1 utp).filter (fun u => !(p2 u).isSuccess) := by
  cases rdr with
  | true => simp [doFetch]
  | false =>
    simp only [doFetch, if_false, Bool.false_eq_true]
    split
    · next hempty =>
      rw [List.isEmpty_iff] at hempty
      simp [hempty, passFailures_eq_filter]
    · simp [passFailures_eq_filter]

/-! ## Claim C1 — when the fatal all-fetches-failed error is raised -/

/-- C1 amended: `crawl_urls` raises the fatal all-fetches-failed error
exactly when the miss set is nonempty and no dispatched URL produced a
usable result on either pass — regardless of how many cache hits there
were.  Cache hits do not prevent the raise, because the source tests
`all_results`, which holds only freshly fetched results. -/
theorem C1_all_failed_iff (urls : List String) (avail : Bool)
    (cache : String → Option CacheEntry) (readerEnabled : Bool)
    (reader : String → Option String) (p1 p2 : String → EngineResult) :
    crawl_urls urls avail cache readerEnabled reader p1 p2 = .allFailed ↔
      ((cachePartition urls avail cache).2 ≠ [] ∧
       (doFetch readerEnabled reader p1 p2 (cachePartition urls avail cache).2).2.1 = []) := by
  simp only [crawl_urls]
  split
  · next hempty =>
    rw [List.isEmpty_iff] at hempty
    simp [hempty]
  · next hne =>
    rw [List.isEmpty_iff] at hne
    split
    · next hall =>
      rw [List.isEmpty_iff] at hall
      simp [hne, hall]
    · next hall =>
      rw [List.isEmpty_iff] at hall
      simp [hne, hall]

/-- C1 counterexample: with one cache hit (`"a"`) and one miss (`"b"`) that
fails both passes, the call still raises the fatal error instead of
returning the cached result, contradicting the claim. -/
theorem C1_counterexample :
    crawl_urls ["a", "b"] true
        (fun u => if u = "a" then some ⟨"c", "a"⟩ else none) false
        (fun _ => none) (fun _ => .failure) (fun _ => .failure) = .allFailed ∧
    (if "a" = "a" then some (⟨"c", "a"⟩ : CacheEntry) else none).isSome = true := by
  exact ⟨by decide, by decide⟩

/-! ## Claim C3 — retry scoping per backend -/

/-- C3 amended: the render backend performs exactly one retry pass — when
the miss set is nonempty and the first pass classified some URLs as
failed, the dispatch trace is exactly the miss batch followed by exactly
the first-pass failure set (so the retry dispatch does occur, and never a
third); when the first pass had no failures, exactly the one miss batch is
dispatched.  First-pass successes are never in any later batch.  The
reader backend dispatches exactly the one miss batch and performs no retry
at all.  With an empty miss set neither backend dispatches anything. -/
theorem C3_retry_scoping (urls : List String) (avail : Bool)
    (cache : String → Option CacheEntry) (reader : String → Option String)
    (p1 p2 : String → EngineResult) :
    ((cachePartition urls avail cache).2 ≠ [] →
      (passFailures p1 (cachePartition urls avail cache).2 ≠ [] →
        crawl_dispatches urls avail cache false reader p1 p2 =
          [(cachePartition urls avail cache).2,
           passFailures p1 (cachePartition urls avail cache).2]) ∧
      (passFailures p1 (cachePartition urls avail cache).2 = [] →
        crawl_dispatches urls avail cache false reader p1 p2 =
          [(cachePartition urls avail cache).2]) ∧
      crawl_dispatches urls avail cache true reader p1 p2 =
        [(cachePartition urls avail cache).2]) ∧
    ((cachePartition urls avail cache).2 = [] →
      crawl_dispatches urls avail cache false reader p1 p2 = [] ∧
      crawl_dispatches urls avail cache true reader p1 p2 = []) ∧
    (crawl_dispatches urls avail cache false reader p1 p2).length ≤ 2 ∧
    (∀ d ∈ (crawl_dispatches urls avail cache false reader p1 p2).drop 1,
        d = passFailures p1 (cachePartition urls avail cache).2 ∧
        ∀ u ∈ d, u ∈ (cachePartition urls avail cache).2 ∧ (p1 u).isSuccess = false) ∧
    (crawl_dispatches urls avail cache true reader p1 p2).length ≤ 1 := by
  refine ⟨?_, ?_, ?_, ?_, ?_⟩
  · intro hne
    refine ⟨?_, ?_, ?_⟩
    · intro hretry
      simp only [crawl_dispatches]
      rw [if_neg (by simp [List.isEmpty_iff, hne])]
      simp only [doFetch, Bool.false_eq_true, if_false]
      rw [if_neg (by simp [List.isEmpty_iff, hretry])]
    · intro hretry
      simp only [crawl_dispatches]
      rw [if_neg (by simp [List.isEmpty_iff, hne])]
      simp only [doFetch, Bool.false_eq_true, if_false]
      rw [if_pos (by simp [List.isEmpty_iff, hretry])]
    · simp only [crawl_dispatches]
      rw [if_neg (by simp [List.isEmpty_iff, hne])]
      simp [doFetch]
  · intro hempty
    constructor <;>
      · simp only [crawl_dispatches]
        rw [if_pos (by simp [List.isEmpty_iff, hempty])]
  · simp only [crawl_dispatches]
    split
    · simp
    · simp only [doFetch, Bool.false_eq_true, if_false]
      split <;> simp
  · simp only [crawl_dispatches]
    split
    · simp
    · simp only [doFetch, Bool.false_eq_true, if_false]
      split
      · simp
      · intro d hd
        simp only [List.drop_succ_cons, List.drop_zero, List.mem_singleton] at hd
        subst hd
        refine ⟨rfl, fun u hu => ?_⟩
        exact mem_passFailures.mp hu
  · simp only [crawl_dispatches]
    split
    · simp
    · simp [doFetch]

/-- C3 witness: a concrete render run whose first pass fails one of two
miss URLs does dispatch a second batch holding exactly that URL and
nothing more — two dispatches in total. -/
theorem C3_retry_scoping_witness :
    crawl_dispatches ["a", "b"] false (fun _ => none) false (fun _ => none)
        (fun u => if u = "a" then .ok "x" else .failure) (fun _ => .failure) =
      [["a", "b"], ["b"]] := by
  have h := C3_retry_scoping ["a", "b"] false (fun _ => none) (fun _ => none)
    (fun u => if u = "a" then .ok "x" else .failure) (fun _ => .failure)
  rw [(h.1 (by decide)).1 (by decide)]
  decide

/-- C3 counterexample: on the reader path a URL that fails the single
fan-out pass is never re-dispatched — the dispatch trace has exactly one
batch, although the claim requires a second dispatch containing it. -/
theorem C3_reader_no_retry_counterexample :
    crawl_dispatches ["u"] false (fun _ => none) true (fun _ => none)
        (fun _ => .failure) (fun _ => .failure) = [["u"]] ∧
    ((fun _ => (none : Option String)) "u").isNone = true := by
  exact ⟨by decide, rfl⟩

/-! ## Claim C5 — success classification of the render backend -/

/-- C5 amended: a URL of a dispatched pass is classified `Success` exactly
when the engine result is a success exposing the content field — whatever
the content, including the empty string; such a result enters
`all_results` as-is, and only non-`ok` results are classified as failed
(and so retried or reported).  There is no non-emptiness test. -/
theorem C5_success_classification (p1 p2 : String → EngineResult)
    (reader : String → Option String) (utp : List String) (u : String)
    (hu : u ∈ utp) :
    ((p1 u).isSuccess = true ↔ ∃ c, p1 u = .ok c) ∧
    (∀ c, p1 u = .ok c →
      (⟨c, u⟩ : ResultEntry) ∈ (doFetch false reader p1 p2 utp).2.1) ∧
    ((p1 u).isSuccess = false → u ∈ passFailures p1 utp) := by
  refine ⟨?_, ?_, ?_⟩
  · cases hp : p1 u <;> simp [EngineResult.isSuccess]
  · intro c hc
    have hmem := mem_passResults_of hu hc
    simp only [doFetch, Bool.false_eq_true, if_false]
    split
    · exact hmem
    · exact List.mem_append_left _ hmem
  · intro hf
    exact mem_passFailures.mpr ⟨hu, hf⟩

/-- C5 witness: an engine success with empty-string content is accepted
into the fetched results. -/
theorem C5_success_classification_witness :
    (⟨"", "u"⟩ : ResultEntry) ∈
      (doFetch false (fun _ => none) (fun _ => EngineResult.ok "")
        (fun _ => .failure) ["u"]).2.1 :=
  (C5_success_classification (fun _ => EngineResult.ok "") (fun _ => .failure)
    (fun _ => none) ["u"] "u" (by simp)).2.1 "" rfl

/-- C5 counterexample: an engine success carrying empty-string extracted
content is classified `Success`, and the crawl returns it as a result with
empty content — it is not retried and not reported in `failed_urls`,
contradicting the claim. -/
theorem C5_empty_content_counterexample :
    (EngineResult.ok "").isSuccess = true ∧
    crawl_urls ["u"] false (fun _ => none) false (fun _ => none)
        (fun _ => .ok "") (fun _ => .failure) =
      .ok ⟨[⟨"", "u"⟩], 1, [], 0, some 1⟩ := by
  exact ⟨rfl, by decide⟩

/-! ## Claim C2 — counting and partition of the batch -/

/-- Whether a miss URL ends up with a usable fetched result: on the reader
path, the single reader call succeeded; on the render path, one of the two
passes returned a usable result. -/
def fetchSuccess (rdr : Bool) (reader : String → Option String)
    (p1 p2 : String → EngineResult) (u : String) : Bool :=
  if rdr then (reader u).isSome
  else (p1 u).isSuccess || (p2 u).isSuccess

theorem contains_eq_decide_mem (l : List String) (a : String) :
    l.contains a = decide (a ∈ l) := by
  cases hd : decide (a ∈ l) with
  | false =>
    cases hc : l.contains a with
    | false => rfl
    | true => simp_all [List.elem_iff]
  | true =>
    cases hc : l.contains a with
    | false => simp_all [List.elem_iff]
    | true => rfl

theorem mem_doFetch_refs {rdr : Bool} {reader : String → Option String}
    {p1 p2 : String → EngineResult} {utp : List String} {u : String} :
    u ∈ ((doFetch rdr reader p1 p2 utp).2.1).map ResultEntry.reference ↔
      u ∈ utp ∧ fetchSuccess rdr reader p1 p2 u = true := by
  rw [doFetch_refs]
  cases rdr with
  | true => simp [fetchSuccess, List.mem_filter]
  | false =>
    simp only [Bool.false_eq_true, if_false, List.mem_append, List.mem_filter,
      mem_passFailures, fetchSuccess]
    cases h1 : (p1 u).isSuccess <;> cases h2 : (p2 u).isSuccess <;>
      simp [h1, h2]

theorem dedup_append_self {l : List String} (h : l.Nodup) :
    (l ++ l).dedup.length = l.length := by
  calc (l ++ l).dedup.length = (l ++ l).toFinset.card := (List.card_toFinset _).symm
    _ = l.toFinset.card := by simp
    _ = l.dedup.length := List.card_toFinset _
    _ = l.length := by rw [h.dedup]

/-- The consolidated `failed_urls` list, in closed form: the pre-retry
failures (render: the URLs that failed both passes) followed by every
dispatched URL without a usable result — on the render path each finally
failed URL therefore appears twice. -/
theorem crawl_failed_closed_form (rdr : Bool) (reader : String → Option String)
    (p1 p2 : String → EngineResult) (utp : List String) :
    (doFetch rdr reader p1 p2 utp).2.2 ++
      utp.filter (fun u =>
        !(((doFetch rdr reader p1 p2 utp).2.1).map ResultEntry.reference).contains u) =
    (if rdr then [] else utp.filter (fun u => !(fetchSuccess rdr reader p1 p2 u))) ++
      utp.filter (fun u => !(fetchSuccess rdr reader p1 p2 u)) := by
  have hcons : utp.filter (fun u =>
        !(((doFetch rdr reader p1 p2 utp).2.1).map ResultEntry.reference).contains u) =
      utp.filter (fun u => !(fetchSuccess rdr reader p1 p2 u)) := by
    refine List.filter_congr' ?_
    intro u hu
    rw [contains_eq_decide_mem]
    cases hfs : fetchSuccess rdr reader p1 p2 u with
    | true =>
      have : u ∈ ((doFetch rdr reader p1 p2 utp).2.1).map ResultEntry.reference :=
        mem_doFetch_refs.mpr ⟨hu, hfs⟩
      simp [this]
    | false =>
      have : u ∉ ((doFetch rdr reader p1 p2 utp).2.1).map ResultEntry.reference := by
        intro hmem
        have := (mem_doFetch_refs.mp hmem).2
        simp [hfs] at this
      simp [this]
  rw [hcons, doFetch_failed0]
  congr 1
  cases rdr with
  | true => rfl
  | false =>
    simp only [Bool.false_eq_true, if_false]
    rw [passFailures_eq_filter, List.filter_filter]
    refine List.filter_congr' ?_
    intro u hu
    cases h1 : (p1 u).isSuccess <;> cases h2 : (p2 u).isSuccess <;>
      simp [fetchSuccess, h1, h2]

theorem length_filter_or {α : Type} (a b : α → Bool) (l : List α) :
    (l.filter (fun u => a u || b u)).length =
      (l.filter a).length + ((l.filter (fun u => !(a u))).filter b).length := by
  induction l with
  | nil => simp
  | cons x t ih =>
    cases ha : a x <;> cases hb : b x <;>
      simp [List.filter_cons, ha, hb, ih] <;> omega

/-- The length of the fetched result list equals the number of dispatched
URLs with a usable outcome. -/
theorem doFetch_length (rdr : Bool) (reader : String → Option String)
    (p1 p2 : String → EngineResult) (utp : List String) :
    ((doFetch rdr reader p1 p2 utp).2.1).length =
      (utp.filter (fun u => fetchSuccess rdr reader p1 p2 u)).length := by
  rw [← List.length_map _ ResultEntry.reference, doFetch_refs]
  cases rdr with
  | true =>
    simp only [if_true]
    rfl
  | false =>
    simp only [Bool.false_eq_true, if_false, List.length_append]
    rw [passFailures_eq_filter]
    have hor := length_filter_or (fun u => (p1 u).isSuccess)
      (fun u => (p2 u).isSuccess) utp
    have hco : utp.filter (fun u => fetchSuccess false reader p1 p2 u) =
        utp.filter (fun u => (p1 u).isSuccess || (p2 u).isSuccess) := by
      refine List.filter_congr' ?_
      intro u _
      simp [fetchSuccess]
    rw [hco, hor]

/-- Membership in the consolidated `failed_urls` list: exactly the
dispatched URLs without a usable outcome. -/
theorem mem_crawl_failed {rdr : Bool} {reader : String → Option String}
    {p1 p2 : String → EngineResult} {utp : List String} {v : String} :
    v ∈ (doFetch rdr reader p1 p2 utp).2.2 ++
        utp.filter (fun u =>
          !(((doFetch rdr reader p1 p2 utp).2.1).map ResultEntry.reference).contains u) ↔
      v ∈ utp ∧ fetchSuccess rdr reader p1 p2 v = false := by
  rw [crawl_failed_closed_form]
  cases rdr with
  | true => simp [List.mem_filter]
  | false =>
    simp only [Bool.false_eq_true, if_false, List.mem_append, List.mem_filter]
    constructor
    · rintro (⟨h1, h2⟩ | ⟨h1, h2⟩) <;> exact ⟨h1, by simpa using h2⟩
    · rintro ⟨h1, h2⟩
      exact Or.inr ⟨h1, by simpa using h2⟩

/-- C2 amended: for duplicate-free input batches and every pattern of
cache hits and fetch outcomes, a returned response satisfies
`success_count = cache_hits + newly_crawled` (with `newly_crawled` read as
0 on the all-cached path, where the key is absent), and
`success_count + |dedup failed_urls| = |input urls|`; each input URL lands
in exactly one of cache hit / fetched result / `failed_urls` — but
`failed_urls` itself may list a URL twice (each render-path URL failing
both passes appears once from the retry loop and once from consolidation),
so the claim's `success_count + |failed_urls| = |unique input urls|` and
its no-duplicates part fail. -/
theorem C2_counting_partition (urls : List String) (avail : Bool)
    (cache : String → Option CacheEntry) (rdr : Bool)
    (reader : String → Option String) (p1 p2 : String → EngineResult)
    (r : CrawlResponse) (hnd : urls.Nodup)
    (hok : crawl_urls urls avail cache rdr reader p1 p2 = .ok r) :
    r.success_count = r.cache_hits + r.newly_crawled.getD 0 ∧
    r.success_count + r.failed_urls.dedup.length = urls.length ∧
    ∀ u ∈ urls,
      ((avail = true ∧ (cache u).isSome = true) ∧
        u ∉ (newEntries r).map ResultEntry.reference ∧ u ∉ r.failed_urls) ∨
      (¬(avail = true ∧ (cache u).isSome = true) ∧
        u ∈ (newEntries r).map ResultEntry.reference ∧ u ∉ r.failed_urls) ∨
      (¬(avail = true ∧ (cache u).isSome = true) ∧
        u ∉ (newEntries r).map ResultEntry.reference ∧ u ∈ r.failed_urls) := by
  have hlen := cachePartition_length urls avail cache
  have hutpnd : (cachePartition urls avail cache).2.Nodup :=
    cachePartition_misses_nodup avail cache hnd
  simp only [crawl_urls] at hok
  split at hok
  · next hempty =>
    rw [List.isEmpty_iff] at hempty
    injection hok with h
    subst h
    refine ⟨by simp, ?_, ?_⟩
    · simp only [List.dedup_nil, List.length_nil]
      rw [hempty] at hlen
      simpa using hlen
    · intro u hu
      left
      refine ⟨?_, ?_, by simp⟩
      · by_contra hmiss
        have := (mem_cachePartition_misses hu).mpr hmiss
        rw [hempty] at this
        simp at this
      · simp [newEntries, List.drop_length]
  · next hne =>
    rw [List.isEmpty_iff] at hne
    split at hok
    · exact absurd hok (by simp)
    · next hall =>
      injection hok with h
      subst h
      have hLnd : ((cachePartition urls avail cache).2.filter
          (fun u => !(fetchSuccess rdr reader p1 p2 u))).Nodup := hutpnd.filter _
      have hpart := length_filter_partition
        (fun u => fetchSuccess rdr reader p1 p2 u) (cachePartition urls avail cache).2
      have hallen := doFetch_length rdr reader p1 p2 (cachePartition urls avail cache).2
      have hdedup : ((doFetch rdr reader p1 p2 (cachePartition urls avail cache).2).2.2 ++
          (cachePartition urls avail cache).2.filter (fun u =>
            !(((doFetch rdr reader p1 p2 (cachePartition urls avail cache).2).2.1).map
                ResultEntry.reference).contains u)).dedup.length =
          ((cachePartition urls avail cache).2.filter
            (fun u => !(fetchSuccess rdr reader p1 p2 u))).length := by
        rw [crawl_failed_closed_form]
        cases rdr with
        | true =>
          simp only [if_true, List.nil_append]
          rw [hLnd.dedup]
        | false =>
          simp only [Bool.false_eq_true, if_false]
          exact dedup_append_self hLnd
      have hprref : ((((doFetch rdr reader p1 p2 (cachePartition urls avail cache).2).2.1).map
            (fun e => (⟨normalize_content e.content, e.reference⟩ : ResultEntry))).map
              ResultEntry.reference) =
          (((doFetch rdr reader p1 p2 (cachePartition urls avail cache).2).2.1).map
            ResultEntry.reference) := by
        rw [List.map_map]
        rfl
      refine ⟨by simp, ?_, ?_⟩
      · dsimp only
        simp only [List.length_append, List.length_map]
        rw [hdedup, hallen]
        omega
      · intro u hu
        dsimp only [newEntries]
        simp only [List.drop_left]
        rw [hprref]
        by_cases hmiss : avail = true ∧ (cache u).isSome = true
        · left
          have hnotm : u ∉ (cachePartition urls avail cache).2 := by
            intro hin
            exact (mem_cachePartition_misses hu).mp hin hmiss
          refine ⟨hmiss, ?_, ?_⟩
          · intro hmem
            exact hnotm (mem_doFetch_refs.mp hmem).1
          · intro hmem
            exact hnotm (mem_crawl_failed.mp hmem).1
        · have hin : u ∈ (cachePartition urls avail cache).2 :=
            (mem_cachePartition_misses hu).mpr hmiss
          cases hfs : fetchSuccess rdr reader p1 p2 u with
          | true =>
            right
            left
            refine ⟨hmiss, mem_doFetch_refs.mpr ⟨hin, hfs⟩, ?_⟩
            intro hmem
            rw [(mem_crawl_failed.mp hmem).2] at hfs
            exact absurd hfs (by simp)
          | false =>
            right
            right
            refine ⟨hmiss, ?_, mem_crawl_failed.mpr ⟨hin, hfs⟩⟩
            intro hmem
            rw [(mem_doFetch_refs.mp hmem).2] at hfs
            exact absurd hfs (by simp)

/-- C2 witness: one cache hit, one fetched URL, one retry-failed URL on the
render path; the amended identities hold there. -/
theorem C2_counting_partition_witness :
    (⟨[⟨"c", "a"⟩, ⟨"x", "b"⟩], 2, ["d", "d"], 1, some 1⟩ : CrawlResponse).success_count =
      (⟨[⟨"c", "a"⟩, ⟨"x", "b"⟩], 2, ["d", "d"], 1, some 1⟩ : CrawlResponse).cache_hits +
      (⟨[⟨"c", "a"⟩, ⟨"x", "b"⟩], 2, ["d", "d"], 1, some 1⟩ :
        CrawlResponse).newly_crawled.getD 0 ∧
    (⟨[⟨"c", "a"⟩, ⟨"x", "b"⟩], 2, ["d", "d"], 1, some 1⟩ : CrawlResponse).success_count +
      (⟨[⟨"c", "a"⟩, ⟨"x", "b"⟩], 2, ["d", "d"], 1, some 1⟩ :
        CrawlResponse).failed_urls.dedup.length = (["a", "b", "d"] : List String).length ∧
    ∀ u ∈ (["a", "b", "d"] : List String),
      ((true = true ∧ ((fun v => if v = "a" then some (⟨"c", "a"⟩ : CacheEntry) else none) u).isSome = true) ∧
        u ∉ (newEntries ⟨[⟨"c", "a"⟩, ⟨"x", "b"⟩], 2, ["d", "d"], 1, some 1⟩).map
              ResultEntry.reference ∧
        u ∉ (⟨[⟨"c", "a"⟩, ⟨"x", "b"⟩], 2, ["d", "d"], 1, some 1⟩ :
              CrawlResponse).failed_urls) ∨
      (¬(true = true ∧ ((fun v => if v = "a" then some (⟨"c", "a"⟩ : CacheEntry) else none) u).isSome = true) ∧
        u ∈ (newEntries ⟨[⟨"c", "a"⟩, ⟨"x", "b"⟩], 2, ["d", "d"], 1, some 1⟩).map
              ResultEntry.reference ∧
        u ∉ (⟨[⟨"c", "a"⟩, ⟨"x", "b"⟩], 2, ["d", "d"], 1, some 1⟩ :
              CrawlResponse).failed_urls) ∨
      (¬(true = true ∧ ((fun v => if v = "a" then some (⟨"c", "a"⟩ : CacheEntry) else none) u).isSome = true) ∧
        u ∉ (newEntries ⟨[⟨"c", "a"⟩, ⟨"x", "b"⟩], 2, ["d", "d"], 1, some 1⟩).map
              ResultEntry.reference ∧
        u ∈ (⟨[⟨"c", "a"⟩, ⟨"x", "b"⟩], 2, ["d", "d"], 1, some 1⟩ :
              CrawlResponse).failed_urls) :=
  C2_counting_partition ["a", "b", "d"] true
    (fun v => if v = "a" then some ⟨"c", "a"⟩ else none) false (fun _ => none)
    (fun v => if v = "b" then .ok "x" else .failure) (fun _ => .failure)
    ⟨[⟨"c", "a"⟩, ⟨"x", "b"⟩], 2, ["d", "d"], 1, some 1⟩ (by decide) (by decide)

/-- C2 counterexample: input `["a", "b"]`, no cache, render path, `a`
succeeds on pass 1, `b` fails both passes.  `failed_urls` is
`["b", "b"]` — `b` is listed twice — so
`success_count + |failed_urls| = 3 ≠ 2 = |unique input urls|`. -/
theorem C2_duplicate_failed_counterexample :
    crawl_urls ["a", "b"] false (fun _ => none) false (fun _ => none)
        (fun u => if u = "a" then .ok "x" else .failure) (fun _ => .failure) =
      .ok ⟨[⟨"x", "a"⟩], 1, ["b", "b"], 0, some 1⟩ ∧
    ¬(["b", "b"] : List String).Nodup ∧
    1 + (["b", "b"] : List String).length ≠ (["a", "b"] : List String).length := by
  refine ⟨by decide, by decide, by decide⟩

/-! ## Claim C4 — the end-to-end example -/

/-- C4 amended: on the spec's end-to-end example the crawl returns the two
results in order with `cache_hits = 0`, `newly_crawled = 2` and
`failed_urls = []` — but the first content is `"Hi\nbold\nlink"`, each
extracted text node on its own line (the text extraction separates nodes
with newlines and the cleanup pass strips blank lines), not the claimed
space-separated `"Hi bold link"`. -/
theorem C4_example_run :
    crawl_urls ["https://a.example", "https://b.example"] true (fun _ => none) false
        (fun _ => none)
        (fun u => if u = "https://a.example" then
            .ok "# Hi\n**bold** [link](http://x)" else .failure)
        (fun u => if u = "https://b.example" then .ok "- item" else .failure) =
      .ok ⟨[⟨"Hi\nbold\nlink", "https://a.example"⟩, ⟨"item", "https://b.example"⟩],
        2, [], 0, some 2⟩ := by
  decide

/-- C4 counterexample: the same run does not produce the claim's expected
first content `"Hi bold link"`. -/
theorem C4_example_counterexample :
    crawl_urls ["https://a.example", "https://b.example"] true (fun _ => none) false
        (fun _ => none)
        (fun u => if u = "https://a.example" then
            .ok "# Hi\n**bold** [link](http://x)" else .failure)
        (fun u => if u = "https://b.example" then .ok "- item" else .failure) ≠
      .ok ⟨[⟨"Hi bold link", "https://a.example"⟩, ⟨"item", "https://b.example"⟩],
        2, [], 0, some 2⟩ ∧
    ("Hi\nbold\nlink" : String) ≠ "Hi bold link" := by
  refine ⟨by decide, by decide⟩

/-! ## Claim C6 — response fields on the all-cached path -/

/-- C6: on the all-cached path the returned response carries no
`newly_crawled` value (the source dictionary at crawler.py lines 347-352
has only four keys), modelled as `newly_crawled = none`; the other paths
set it. -/
theorem C6_all_cached_missing_key :
    crawl_urls ["u"] true (fun _ => some ⟨"c", "u"⟩) false (fun _ => none)
        (fun _ => .failure) (fun _ => .failure) =
      .ok ⟨[⟨"c", "u"⟩], 1, [], 1, none⟩ := by
  decide

/-! ## Claim C7 — idempotence of the normalization pipeline -/

/-- C7 counterexample: the pipeline is not idempotent on its own output.
Stage 1 turns the inline code span of `"a `**` b"` into a line holding
only `**`; stage 2 deletes that emphasis pair, leaving an interior blank
line, and renormalizing collapses that blank line away. -/
theorem C7_not_idempotent_counterexample :
    normalize_content "a `**` b" = "a\n\nb" ∧
    normalize_content (normalize_content "a `**` b") = "a\nb" ∧
    normalize_content (normalize_content "a `**` b") ≠ normalize_content "a `**` b" := by
  refine ⟨by decide, by decide, by decide⟩

/-- C7 amended supporting machinery: the split/join round trips and the
conditions under which each pipeline stage is the identity. -/
theorem splitNl_ne_nil (l : List Char) : splitNl l ≠ [] := by
  cases l with
  | nil => simp [splitNl]
  | cons c t =>
    simp only [splitNl]
    split
    · simp
    · split <;> simp

theorem joinNl_splitNl (l : List Char) : joinNl (splitNl l) = l := by
  induction l with
  | nil => rfl
  | cons c t ih =>
    simp only [splitNl]
    split
    · next hc =>
      subst hc
      cases hs : splitNl t with
      | nil => exact absurd hs (splitNl_ne_nil t)
      | cons s0 r =>
        rw [hs] at ih
        cases r with
        | nil => simpa [joinNl] using ih
        | cons x r2 => simpa [joinNl] using ih
    · next hc =>
      cases hs : splitNl t with
      | nil => exact absurd hs (splitNl_ne_nil t)
      | cons s0 r =>
        rw [hs] at ih
        cases r with
        | nil => simpa [joinNl] using ih
        | cons x r2 => simpa [joinNl] using ih

theorem splitNl_no_newline (l : List Char) : ∀ x ∈ splitNl l, '\n' ∉ x := by
  induction l with
  | nil =>
    intro x hx
    simp [splitNl] at hx
    simp [hx]
  | cons c t ih =>
    intro x hx
    simp only [splitNl] at hx
    split at hx
    · rcases List.mem_cons.mp hx with rfl | hmem
      · simp
      · exact ih x hmem
    · next hc =>
      cases hs : splitNl t with
      | nil => exact absurd hs (splitNl_ne_nil t)
      | cons s0 r =>
        rw [hs] at hx
        rcases List.mem_cons.mp hx with rfl | hmem
        · intro hmem2
          rcases List.mem_cons.mp hmem2 with h | h
          · exact hc h.symm
          · exact ih s0 (hs ▸ List.mem_cons_self _ _) h
        · exact ih x (hs ▸ List.mem_cons_of_mem _ hmem)

theorem splitNl_single {a : List Char} (h : '\n' ∉ a) : splitNl a = [a] := by
  induction a with
  | nil => rfl
  | cons c t ih =>
    have hc : ¬(c = '\n') := fun he => h (he ▸ List.mem_cons_self _ _)
    have ht : '\n' ∉ t := fun hm => h (List.mem_cons_of_mem _ hm)
    simp only [splitNl, if_neg hc, ih ht]

theorem splitNl_append_newline {a : List Char} (X : List Char) (h : '\n' ∉ a) :
    splitNl (a ++ '\n' :: X) = a :: splitNl X := by
  induction a with
  | nil => simp [splitNl]
  | cons c t ih =>
    have hc : ¬(c = '\n') := fun he => h (he ▸ List.mem_cons_self _ _)
    have ht : '\n' ∉ t := fun hm => h (List.mem_cons_of_mem _ hm)
    simp only [List.cons_append, splitNl, if_neg hc, List.append_eq]
    rw [ih ht]

theorem splitNl_joinNl {lines : List (List Char)} (h1 : lines ≠ [])
    (h2 : ∀ x ∈ lines, '\n' ∉ x) : splitNl (joinNl lines) = lines := by
  induction lines with
  | nil => exact absurd rfl h1
  | cons a rest ih =>
    cases rest with
    | nil => simpa [joinNl] using splitNl_single (h2 a (List.mem_cons_self _ _))
    | cons b r =>
      have hja : joinNl (a :: b :: r) = a ++ '\n' :: joinNl (b :: r) := rfl
      rw [hja, splitNl_append_newline _ (h2 a (List.mem_cons_self _ _)),
        ih (by simp) (fun x hx => h2 x (List.mem_cons_of_mem _ hx))]

theorem dropWhile_eq_self_of_head (p : Char → Bool) (l : List Char)
    (h : ∀ c, l.head? = some c → p c = false) : l.dropWhile p = l := by
  cases l with
  | nil => rfl
  | cons c t => simp [List.dropWhile_cons, h c rfl]

theorem dropWhile_length_eq {p : Char → Bool} {l : List Char}
    (h : (l.dropWhile p).length = l.length) : l.dropWhile p = l := by
  cases l with
  | nil => rfl
  | cons c t =>
    by_cases hp : p c
    · have hle := length_dropWhile_le p t
      rw [List.dropWhile_cons, if_pos hp] at h
      simp only [List.length_cons] at h
      omega
    · rw [List.dropWhile_cons, if_neg hp]

theorem stripList_parts {x : List Char} (h : stripList x = x) :
    x.dropWhile isPySpace = x ∧ x.reverse.dropWhile isPySpace = x.reverse := by
  have h1 : (stripList x).length ≤ (x.dropWhile isPySpace).length := by
    unfold stripList
    rw [List.length_reverse]
    calc ((x.dropWhile isPySpace).reverse.dropWhile isPySpace).length
        ≤ (x.dropWhile isPySpace).reverse.length := length_dropWhile_le _ _
      _ = (x.dropWhile isPySpace).length := List.length_reverse _
  have h2 : (x.dropWhile isPySpace).length ≤ x.length := length_dropWhile_le _ _
  have h3 : (stripList x).length = x.length := by rw [h]
  have hd : x.dropWhile isPySpace = x := dropWhile_length_eq (by omega)
  refine ⟨hd, ?_⟩
  have h4 : stripList x = (x.reverse.dropWhile isPySpace).reverse := by
    unfold stripList
    rw [hd]
  rw [h4] at h
  have h5 := congrArg List.reverse h
  rwa [List.reverse_reverse] at h5

theorem head_not_space_of_dropWhile {x : List Char}
    (hd : x.dropWhile isPySpace = x) :
    ∀ c, x.head? = some c → isPySpace c = false := by
  intro c hc
  cases x with
  | nil => simp at hc
  | cons a t =>
    simp only [List.head?_cons, Option.some.injEq] at hc
    subst hc
    by_contra hsp
    rw [Bool.not_eq_false] at hsp
    rw [List.dropWhile_cons, if_pos hsp] at hd
    have hle := length_dropWhile_le isPySpace t
    have := congrArg List.length hd
    simp only [List.length_cons] at this
    omega

theorem stripList_eq_self_of_ends (X : List Char)
    (hh : ∀ c, X.head? = some c → isPySpace c = false)
    (hl : ∀ c, X.getLast? = some c → isPySpace c = false) :
    stripList X = X := by
  have h1 : X.dropWhile isPySpace = X := dropWhile_eq_self_of_head _ _ hh
  have h2 : X.reverse.dropWhile isPySpace = X.reverse := by
    apply dropWhile_eq_self_of_head
    intro c hc
    rw [List.head?_reverse] at hc
    exact hl c hc
  unfold stripList
  rw [h1, h2, List.reverse_reverse]

theorem joinNl_ne_nil {a : List Char} (rest : List (List Char)) (ha : a ≠ []) :
    joinNl (a :: rest) ≠ [] := by
  cases rest with
  | nil => simpa [joinNl] using ha
  | cons b r => simp [joinNl]

theorem head?_joinNl {a : List Char} (rest : List (List Char)) (ha : a ≠ []) :
    (joinNl (a :: rest)).head? = a.head? := by
  cases rest with
  | nil => rfl
  | cons b r => exact List.head?_append_of_ne_nil _ ha

theorem getLast?_joinNl_not_space :
    ∀ (lines : List (List Char)), lines ≠ [] →
    (∀ x ∈ lines, x ≠ [] ∧ stripList x = x) →
    ∀ c, (joinNl lines).getLast? = some c → isPySpace c = false := by
  intro lines
  induction lines with
  | nil => intro h; exact absurd rfl h
  | cons a rest ih =>
    intro _ hx c hc
    cases rest with
    | nil =>
      have ha := hx a (List.mem_cons_self _ _)
      exact head_not_space_of_dropWhile (stripList_parts ha.2).2 c
        (by rwa [List.head?_reverse])
    | cons b r =>
      have hbr : joinNl (b :: r) ≠ [] :=
        joinNl_ne_nil r (hx b (List.mem_cons_of_mem _ (List.mem_cons_self _ _))).1
      have hja : joinNl (a :: b :: r) = a ++ '\n' :: joinNl (b :: r) := rfl
      rw [hja, List.getLast?_append_of_ne_nil _ (by simp)] at hc
      have h2 : ('\n' :: joinNl (b :: r)).getLast? = (joinNl (b :: r)).getLast? := by
        have : '\n' :: joinNl (b :: r) = ['\n'] ++ joinNl (b :: r) := rfl
        rw [this, List.getLast?_append_of_ne_nil _ hbr]
      rw [h2] at hc
      exact ih (by simp) (fun x hxm => hx x (List.mem_cons_of_mem _ hxm)) c hc

/-- If every line of `lines` is nonempty and already stripped, their join
is a fixed point of `str.strip()`. -/
theorem stripList_joinNl {lines : List (List Char)} (h1 : lines ≠ [])
    (h : ∀ x ∈ lines, x ≠ [] ∧ stripList x = x) :
    stripList (joinNl lines) = joinNl lines := by
  obtain ⟨a, rest, rfl⟩ : ∃ a rest, lines = a :: rest := by
    cases lines with
    | nil => exact absurd rfl h1
    | cons a rest => exact ⟨a, rest, rfl⟩
  refine stripList_eq_self_of_ends _ ?_ (getLast?_joinNl_not_space _ h1 h)
  intro c hc
  rw [head?_joinNl rest (h a (List.mem_cons_self _ _)).1] at hc
  exact head_not_space_of_dropWhile
    (stripList_parts (h a (List.mem_cons_self _ _)).2).1 c hc

/-- A character that triggers none of the markdown constructs or regex
substitutions of the normalization pipeline. -/
def mdPlainChar (c : Char) : Bool :=
  !(c = '#' || c = '*' || c = '_' || c = '-' || c = '+' || c = '`' ||
    c = '>' || c = '[' || c = ']' || c = '(' || c = ')')

theorem plain_spec {c : Char} (h : mdPlainChar c = true) :
    c ≠ '#' ∧ c ≠ '*' ∧ c ≠ '_' ∧ c ≠ '-' ∧ c ≠ '+' ∧ c ≠ '`' ∧
    c ≠ '>' ∧ c ≠ '[' ∧ c ≠ ']' ∧ c ≠ '(' ∧ c ≠ ')' := by
  simp only [mdPlainChar, Bool.not_eq_true', Bool.or_eq_false_iff,
    decide_eq_false_iff_not] at h
  tauto

theorem subHash_id : ∀ (fuel : Nat) (l : List Char),
    l.all mdPlainChar = true → subHash fuel l = l := by
  intro fuel
  induction fuel with
  | zero => intro l _; rfl
  | succ n ih =>
    intro l hl
    cases l with
    | nil => rfl
    | cons c rest =>
      rw [List.all_cons, Bool.and_eq_true] at hl
      obtain ⟨hc, hrest⟩ := hl
      obtain ⟨h1, -⟩ := plain_spec hc
      simp only [subHash]
      rw [if_neg h1, ih rest hrest]

theorem subLink_id : ∀ (fuel : Nat) (l : List Char),
    l.all mdPlainChar = true → subLink fuel l = l := by
  intro fuel
  induction fuel with
  | zero => intro l _; rfl
  | succ n ih =>
    intro l hl
    cases l with
    | nil => rfl
    | cons c rest =>
      rw [List.all_cons, Bool.and_eq_true] at hl
      obtain ⟨hc, hrest⟩ := hl
      obtain ⟨-, -, -, -, -, -, -, h8, -⟩ := plain_spec hc
      simp only [subLink]
      rw [if_neg h8, ih rest hrest]

theorem subPair2_id : ∀ (fuel : Nat) (l : List Char),
    l.all mdPlainChar = true → subPair2 fuel l = l := by
  intro fuel
  induction fuel with
  | zero => intro l _; rfl
  | succ n ih =>
    intro l hl
    cases l with
    | nil => rfl
    | cons x t =>
      cases t with
      | nil => rfl
      | cons y rest =>
        rw [List.all_cons, Bool.and_eq_true] at hl
        obtain ⟨hx, hrest⟩ := hl
        obtain ⟨-, h2, h3, -⟩ := plain_spec hx
        simp only [subPair2]
        rw [if_neg (by simp [h2, h3]), ih (y :: rest) hrest]

theorem subPair1_id : ∀ (fuel : Nat) (l : List Char),
    l.all mdPlainChar = true → subPair1 fuel l = l := by
  intro fuel
  induction fuel with
  | zero => intro l _; rfl
  | succ n ih =>
    intro l hl
    cases l with
    | nil => rfl
    | cons x rest =>
      rw [List.all_cons, Bool.and_eq_true] at hl
      obtain ⟨hx, hrest⟩ := hl
      obtain ⟨-, h2, h3, -⟩ := plain_spec hx
      simp only [subPair1]
      rw [if_neg (by simp [h2, h3]), ih rest hrest]

theorem subListMarker_id : ∀ (fuel : Nat) (b : Bool) (l : List Char),
    l.all mdPlainChar = true → subListMarker fuel b l = l := by
  intro fuel
  induction fuel with
  | zero => intro b l _; rfl
  | succ n ih =>
    intro b l hl
    cases l with
    | nil => rfl
    | cons c rest =>
      rw [List.all_cons, Bool.and_eq_true] at hl
      obtain ⟨hc, hrest⟩ := hl
      obtain ⟨-, h2, -, h4, h5, -⟩ := plain_spec hc
      simp only [subListMarker]
      rw [if_neg (by simp [h2, h4, h5]), ih _ rest hrest]

theorem subFence_id : ∀ (fuel : Nat) (l : List Char),
    l.all mdPlainChar = true → subFence fuel l = l := by
  intro fuel
  induction fuel with
  | zero => intro l _; rfl
  | succ n ih =>
    intro l hl
    cases l with
    | nil => rfl
    | cons a t =>
      cases t with
      | nil => rfl
      | cons b t2 =>
        cases t2 with
        | nil => rfl
        | cons c rest =>
          rw [List.all_cons, Bool.and_eq_true] at hl
          obtain ⟨ha, hrest⟩ := hl
          obtain ⟨-, -, -, -, -, h6, -⟩ := plain_spec ha
          simp only [subFence]
          rw [if_neg (by simp [h6]), ih (b :: c :: rest) hrest]

theorem subCode_id : ∀ (fuel : Nat) (l : List Char),
    l.all mdPlainChar = true → subCode fuel l = l := by
  intro fuel
  induction fuel with
  | zero => intro l _; rfl
  | succ n ih =>
    intro l hl
    cases l with
    | nil => rfl
    | cons x rest =>
      rw [List.all_cons, Bool.and_eq_true] at hl
      obtain ⟨hx, hrest⟩ := hl
      obtain ⟨-, -, -, -, -, h6, -⟩ := plain_spec hx
      simp only [subCode]
      rw [if_neg h6, ih rest hrest]

theorem subQuoteMarker_id : ∀ (fuel : Nat) (b : Bool) (l : List Char),
    l.all mdPlainChar = true → subQuoteMarker fuel b l = l := by
  intro fuel
  induction fuel with
  | zero => intro b l _; rfl
  | succ n ih =>
    intro b l hl
    cases l with
    | nil => rfl
    | cons c rest =>
      rw [List.all_cons, Bool.and_eq_true] at hl
      obtain ⟨hc, hrest⟩ := hl
      obtain ⟨-, -, -, -, -, -, h7, -⟩ := plain_spec hc
      simp only [subQuoteMarker]
      rw [if_neg (by simp [h7]), ih _ rest hrest]

theorem mdInlineAux_plain : ∀ (fuel : Nat) (l buf : List Char),
    l.all mdPlainChar = true →
    mdInlineAux fuel l buf = flushBuf (l.reverse ++ buf) [] := by
  intro fuel
  induction fuel with
  | zero => intro l buf _; rfl
  | succ n ih =>
    intro l buf hl
    cases l with
    | nil => simp [mdInlineAux]
    | cons c rest =>
      rw [List.all_cons, Bool.and_eq_true] at hl
      obtain ⟨hc, hrest⟩ := hl
      obtain ⟨-, h2, h3, -, -, h6, -, h8, -⟩ := plain_spec hc
      simp only [mdInlineAux]
      rw [if_neg h6, if_neg (by simp [h2, h3]), if_neg h8, ih rest _ hrest]
      simp [List.reverse_cons, List.append_assoc]

theorem mdInline_plain {l : List Char} (hall : l.all mdPlainChar = true)
    (hne : l ≠ []) : mdInline l = [l] := by
  unfold mdInline
  rw [mdInlineAux_plain _ _ _ hall]
  simp [flushBuf, hne]

theorem lineNodes_plain {l : List Char} (hall : l.all mdPlainChar = true)
    (hne : l ≠ []) (hstr : stripList l = l) : lineNodes l = [l] := by
  unfold lineNodes
  rw [hstr, if_neg (by simp [hne])]
  cases l with
  | nil => exact absurd rfl hne
  | cons c t =>
    have hall0 := hall
    rw [List.all_cons, Bool.and_eq_true] at hall
    obtain ⟨hc, ht⟩ := hall
    obtain ⟨h1, h2, -, h4, h5, -⟩ := plain_spec hc
    rw [if_neg (by simp [h1]), if_neg (by simp [h2, h4, h5])]
    exact mdInline_plain hall0 (by simp)

theorem flatten_map_singleton (L : List (List Char)) :
    (L.map (fun x => [x])).flatten = L := by
  induction L <;> simp_all

theorem all_of_lines {l : List Char} (p : Char → Bool) (hnl : p '\n' = true)
    (h : ∀ x ∈ splitNl l, x.all p = true) : l.all p = true := by
  rw [← joinNl_splitNl l]
  revert h
  generalize splitNl l = lines
  intro h
  induction lines with
  | nil => simp [joinNl]
  | cons a rest ih =>
    cases rest with
    | nil => simpa [joinNl] using h a (List.mem_cons_self _ _)
    | cons b r =>
      have hja : joinNl (a :: b :: r) = a ++ '\n' :: joinNl (b :: r) := rfl
      rw [hja, List.all_append, List.all_cons,
        h a (List.mem_cons_self _ _), hnl,
        ih (fun x hx => h x (List.mem_cons_of_mem _ hx))]
      rfl

/-- Plain already-normalized text: every line is nonempty, stripped, and
free of markdown-significant characters. -/
def cleanPlainText (s : String) : Bool :=
  (splitNl s.toList).all (fun x => (!x.isEmpty && x.all mdPlainChar) && stripList x == x)

theorem toList_asString (l : List Char) : l.asString.toList = l := rfl

theorem asString_toList (s : String) : s.toList.asString = s := rfl

/-- C7 amended: the two-stage pipeline is the identity — hence idempotent —
on clean plain text: text whose lines are nonempty, already stripped, and
free of residual markdown-significant characters.  (Full idempotence fails:
normalized output can still contain markdown-active characters or blank
lines, which a second pass rewrites — see the counterexample.) -/
theorem C7_normalize_fixed_point (s : String) (h : cleanPlainText s = true) :
    normalize_content s = s := by
  unfold cleanPlainText at h
  rw [List.all_eq_true] at h
  have hline : ∀ x ∈ splitNl s.toList,
      x ≠ [] ∧ x.all mdPlainChar = true ∧ stripList x = x := by
    intro x hx
    have hb := h x hx
    simp only [Bool.and_eq_true, beq_iff_eq, Bool.not_eq_true'] at hb
    refine ⟨?_, hb.1.2, hb.2⟩
    intro hnil
    rw [hnil] at hb
    simp at hb
  have hallchars : s.toList.all mdPlainChar = true :=
    all_of_lines mdPlainChar (by decide) (fun x hx => (hline x hx).2.1)
  have hstage1 : markdown_to_textL s.toList = s.toList := by
    unfold markdown_to_textL markdownNodes soup_get_text cleanupBlankLines
    have hnodes : (splitNl s.toList).map lineNodes =
        (splitNl s.toList).map (fun x => [x]) :=
      List.map_congr_left (fun x hx =>
        lineNodes_plain (hline x hx).2.1 (hline x hx).1 (hline x hx).2.2)
    rw [hnodes, flatten_map_singleton, joinNl_splitNl]
    have hmapstrip : (splitNl s.toList).map stripList = splitNl s.toList := by
      rw [List.map_congr_left (g := id) (fun x hx => (hline x hx).2.2), List.map_id]
    rw [hmapstrip,
      List.filter_eq_self.mpr (fun x hx => by simp [(hline x hx).1]),
      joinNl_splitNl]
  have hstage2 : markdown_to_text_regexL s.toList = s.toList := by
    simp only [markdown_to_text_regexL]
    rw [subHash_id _ _ hallchars, subLink_id _ _ hallchars,
      subPair2_id _ _ hallchars, subPair1_id _ _ hallchars,
      subListMarker_id _ _ _ hallchars, subFence_id _ _ hallchars,
      subCode_id _ _ hallchars, subQuoteMarker_id _ _ _ hallchars]
    rw [← joinNl_splitNl s.toList]
    exact stripList_joinNl (splitNl_ne_nil _)
      (fun x hx => ⟨(hline x hx).1, (hline x hx).2.2⟩)
  show markdown_to_text_regex (markdown_to_text s) = s
  unfold markdown_to_text
  rw [hstage1, asString_toList]
  unfold markdown_to_text_regex
  rw [hstage2, asString_toList]

/-- C7 witness: the normalized output of the end-to-end example text is
clean plain text and a fixed point of the pipeline. -/
theorem C7_normalize_fixed_point_witness :
    cleanPlainText "Hi\nbold\nlink" = true ∧
    normalize_content "Hi\nbold\nlink" = "Hi\nbold\nlink" :=
  ⟨by decide, C7_normalize_fixed_point "Hi\nbold\nlink" (by decide)⟩

end Searcrawl
